import Mathlib

/-
Verification of the stat / effect runtime of the Plugin-Abilities repository.

The development shallowly embeds the relevant C++ classes:

* `Gameplay::Stat` (src/Plugin/Public/Gameplay/Stat/Stat.hpp) — a per-actor
  stat instance with flat/additive/multiplier accumulators, a cached
  effective value and a dirty flag.  `Real32` values are modelled as `ℚ`
  (exact arithmetic; IEEE rounding is out of scope, and `1/0 = 0` in `ℚ`
  where IEEE would give `inf` — no theorem below depends on division by
  zero except through explicit nonzero hypotheses).
* `Gameplay::StatArchetype` / `StatInput` / `StatFormula`
  (StatArchetype.hpp, StatInput.hpp, StatFormula.hpp) — the archetype
  holds base/min/max input expressions and an optional custom formula.
  The duck-typed `Context` template parameter is modelled by the narrow
  capability interface the spec names: a function `ℕ → ℚ` mapping stat
  handles to values (`GetStat`).  Token lookups are irrelevant to the
  claims and omitted from the context.
* `Gameplay::EffectData` scheduling state and `Arsenal::ApplyEffect` /
  `Arsenal::OnTickEffect` (Arsenal.cpp) — timestamps carry an explicit
  infinity because a permanent effect stores `kInfinity` in its
  expiration.
* `Gameplay::EffectSet::Poll` / `FindBestPosition` (EffectSet.hpp) —
  registry as an association list id ↦ instance, the active list as a
  list of ids in the stored (front-to-back) order; `std::ranges::upper_bound`
  is modelled by the standard binary-search loop it specifies.
* `Gameplay::StatSet::NotifyDependencies` / `Poll` (StatSet.hpp) — the
  dependency table as an association list handle ↦ list of dependents,
  the registry as an association list handle ↦ dirty flag, plus a log of
  the SetDirty calls performed so that "marked exactly once" is provable.
  The C++ recursion is modelled with explicit fuel returning `none` on
  exhaustion; termination of the C++ code corresponds to the theorem
  that enough fuel always yields `some`.
-/

namespace Gameplay

/-! ## Stat model (Stat.hpp, StatArchetype.hpp, StatInput.hpp, StatFormula.hpp) -/

/-- Stat categories, as used by `Stat::Modify` (`StatCategory::Attribute`,
`StatCategory::Resource`). -/
inductive StatCategory : Type
| Attribute
| Resource
deriving DecidableEq, Repr

/-- Stat operators, as used by `Stat::Modify`. -/
inductive StatOperator : Type
| Flat
| Additive
| Multiplicative
| Divisive
| Replace
deriving DecidableEq, Repr

/-- `StatInput`: a direct value, a reference to another stat
(base + stat · coefficient), or a custom formula over the context. -/
inductive StatInput : Type
| value (v : ℚ)
| ref (handle : ℕ) (base coefficient : ℚ)
| formula (f : (ℕ → ℚ) → ℚ)

/-- `StatInput::Resolve(Source)`. -/
def StatInput.resolve (ctx : ℕ → ℚ) : StatInput → ℚ
| .value v => v
| .ref handle base coefficient => base + ctx handle * coefficient
| .formula f => f ctx

/-- `StatFormula::Default(Base, Flat, Additive, Multiplier)`. -/
def statFormulaDefault (base flat additive multiplier : ℚ) : ℚ :=
  (base + flat) * (1 + additive) * multiplier

/-- `Clamp(Result, Minimum, Maximum)` (below the minimum snaps to the
minimum, above the maximum snaps to the maximum). -/
def clampQ (x lo hi : ℚ) : ℚ := if x < lo then lo else if hi < x then hi else x

/-- Association-list lookup (the `find` of the C++ handle-keyed
containers): first entry with the given key, if any. -/
def assocLookup {A : Type} : List (ℕ × A) → ℕ → Option A
  | [], _ => none
  | p :: t, k => if p.1 = k then some p.2 else assocLookup t k

/-- List indexing with a default (the `operator[]` of the C++ vectors in
the modelled scenarios, which never index out of bounds). -/
def listNth : List ℕ → ℕ → ℕ
  | [], _ => 0
  | x :: _, 0 => x
  | _ :: t, n + 1 => listNth t n

/-- `StatArchetype`: category, base/min/max input expressions and an
optional custom formula.  A custom formula receives the context, the
resolved base and the three accumulators, mirroring
`StatFormula::Calculate(Target, Base, Flat, Additive, Multiplier)`
(whose dependency snapshot is a function of the context). -/
structure StatArchetype : Type where
  category : StatCategory
  base : StatInput
  minimum : StatInput
  maximum : StatInput
  formula : Option ((ℕ → ℚ) → ℚ → ℚ → ℚ → ℚ → ℚ)

/-- `StatArchetype::Calculate(Target, Flat, Additive, Multiplier)`. -/
def StatArchetype.calculate (arch : StatArchetype) (ctx : ℕ → ℚ)
    (flat additive multiplier : ℚ) : ℚ :=
  let result :=
    match arch.formula with
    | some f => f ctx (arch.base.resolve ctx) flat additive multiplier
    | none => statFormulaDefault (arch.base.resolve ctx) flat additive multiplier
  clampQ result (arch.minimum.resolve ctx) (arch.maximum.resolve ctx)

/-- The mutable fields of a `Stat` instance (the archetype back-pointer is
passed explicitly to every operation, as the C++ code reads it through
`mArchetype`). -/
structure StatState : Type where
  flat : ℚ
  additive : ℚ
  multiplier : ℚ
  effective : ℚ
  dirty : Bool
deriving DecidableEq, Repr

/-- The `Stat(Archetype)` constructor: zero accumulators, multiplier one,
zero cache, dirty. -/
def mkStat : StatState :=
  { flat := 0, additive := 0, multiplier := 1, effective := 0, dirty := true }

/-- `Stat::SetDirty()`. -/
def StatState.setDirty (s : StatState) : StatState := { s with dirty := true }

/-- `Stat::SetEffective(Target, Effective)`: clamp to the resolved min/max
and clear the dirty flag. -/
def StatState.setEffective (arch : StatArchetype) (ctx : ℕ → ℚ)
    (s : StatState) (effective : ℚ) : StatState :=
  { s with
    effective := clampQ effective (arch.minimum.resolve ctx) (arch.maximum.resolve ctx)
    dirty := false }

/-- `Stat::Calculate(Target)`: recompute the cache through the archetype
when dirty, otherwise return the cache.  Returns the value together with
the post-state (the C++ method mutates `mEffective`/`mDirty`). -/
def StatState.calculate (arch : StatArchetype) (ctx : ℕ → ℚ)
    (s : StatState) : ℚ × StatState :=
  if s.dirty then
    let e := arch.calculate ctx s.flat s.additive s.multiplier
    (e, { s with effective := e, dirty := false })
  else
    (s.effective, s)

/-- `Stat::Modify<Apply>(Target, Operator, Amount)`, the shared body of
`Apply` (`isApply = true`) and `Revert` (`isApply = false`). -/
def StatState.modify (isApply : Bool) (arch : StatArchetype) (ctx : ℕ → ℚ)
    (op : StatOperator) (amount : ℚ) (s : StatState) : StatState :=
  match arch.category with
  | .Attribute =>
    match op with
    | .Flat => { s with flat := s.flat + (if isApply then amount else -amount) }
    | .Additive => { s with additive := s.additive + (if isApply then amount else -amount) }
    | .Multiplicative =>
      { s with multiplier := s.multiplier * (if isApply then amount else 1 / amount) }
    | .Divisive =>
      { s with multiplier := s.multiplier * (if isApply then 1 / amount else amount) }
    | .Replace => if isApply then s.setEffective arch ctx amount else s
  | .Resource =>
    if isApply then
      match op with
      | .Flat => s.setEffective arch ctx (s.effective + amount)
      | .Additive => s.setEffective arch ctx (s.effective * (1 + amount))
      | .Multiplicative => s.setEffective arch ctx (s.effective * amount)
      | .Divisive => s.setEffective arch ctx (s.effective * (1 / amount))
      | .Replace => s.setEffective arch ctx amount
    else s

/-- `Stat::Apply(Target, Operator, Amount)`. -/
def StatState.apply (arch : StatArchetype) (ctx : ℕ → ℚ)
    (op : StatOperator) (amount : ℚ) (s : StatState) : StatState :=
  s.modify true arch ctx op amount

/-- `Stat::Revert(Target, Operator, Amount)`. -/
def StatState.revert (arch : StatArchetype) (ctx : ℕ → ℚ)
    (op : StatOperator) (amount : ℚ) (s : StatState) : StatState :=
  s.modify false arch ctx op amount

/-- The cache-coherence invariant of the spec: whenever the dirty flag is
false, the cached effective value equals the archetype calculation
(formula plus clamping) at the current accumulators and context. -/
def StatInv (arch : StatArchetype) (ctx : ℕ → ℚ) (s : StatState) : Prop :=
  s.dirty = false → s.effective = arch.calculate ctx s.flat s.additive s.multiplier

/-! ## Arsenal.GetStat (Arsenal.hpp) -/

/-- `Arsenal::GetStat(Handle)`: use the per-actor instance when present,
otherwise fall back to the archetype calculation with flat 0, additive 0,
multiplier 1.  The instance map is an association list handle ↦ state. -/
def arsenalGetStat (archetypes : ℕ → StatArchetype) (ctx : ℕ → ℚ)
    (instances : List (ℕ × StatState)) (handle : ℕ) : ℚ :=
  match assocLookup instances handle with
  | some s => (s.calculate (archetypes handle) ctx).1
  | none => (archetypes handle).calculate ctx 0 0 1

/-! ## Effect expiration merging (Effect.cpp / EffectData Merge) -/

/-- Effect refresh policies (EffectPolicies.hpp). -/
inductive EffectRefresh : Type
| Keep
| Replace
| Longest
| Extend
deriving DecidableEq, Repr

/-- Absolute timestamps (`Real64`): a finite value, or the `kInfinity`
expiration stored by permanent effects. -/
inductive XTime : Type
| fin (q : ℚ)
| inf
deriving DecidableEq, Repr

/-- Ordering on timestamps (`<=` on `Real64`, with infinity greatest). -/
def XTime.le : XTime → XTime → Prop
  | _, .inf => True
  | .inf, .fin _ => False
  | .fin a, .fin b => a ≤ b

/-- Strict ordering on timestamps (`<` on `Real64`). -/
def XTime.lt : XTime → XTime → Prop
  | .inf, _ => False
  | .fin _, .inf => True
  | .fin a, .fin b => a < b

instance : ∀ a b : XTime, Decidable (XTime.le a b)
  | .fin _, .inf => .isTrue trivial
  | .inf, .inf => .isTrue trivial
  | .inf, .fin _ => .isFalse id
  | .fin a, .fin b => inferInstanceAs (Decidable (a ≤ b))

instance : ∀ a b : XTime, Decidable (XTime.lt a b)
  | .inf, .inf => .isFalse id
  | .inf, .fin _ => .isFalse id
  | .fin _, .inf => .isTrue trivial
  | .fin a, .fin b => inferInstanceAs (Decidable (a < b))

/-- Timestamp addition (`+` on `Real64`, with infinity absorbing, as IEEE
infinity plus a finite value is infinity). -/
def XTime.add : XTime → XTime → XTime
  | .inf, _ => .inf
  | .fin _, .inf => .inf
  | .fin a, .fin b => .fin (a + b)

/-- Timestamp maximum (`Max` on `Real64`, with infinity greatest). -/
def XTime.maxv : XTime → XTime → XTime
  | .inf, _ => .inf
  | .fin _, .inf => .inf
  | .fin a, .fin b => .fin (max a b)

/-- The statement of the `case EffectRefresh::Replace:` branch body in
`Effect::Merge` (`mExpiration = Other.GetExpiration()`). -/
def refreshReplaceStep (_current incoming : XTime) : XTime := incoming

/-- The statement of the `case EffectRefresh::Longest:` branch body
(`mExpiration = Max(mExpiration, Other.GetExpiration())`). -/
def refreshLongestStep (current incoming : XTime) : XTime := XTime.maxv current incoming

/-- The statement of the `case EffectRefresh::Extend:` branch body
(`mExpiration += Other.GetExpiration()`). -/
def refreshExtendStep (current incoming : XTime) : XTime := XTime.add current incoming

/-- The expiration-merging switch of `Effect::Merge`.  The C++ `Replace`
and `Longest` cases lack a `break`, so control falls through the later
cases: `Replace` runs the replace, longest and extend statements in
sequence, `Longest` runs the longest and extend statements, `Extend` runs
only the extend statement, and `Keep` leaves the expiration unchanged. -/
def mergeExpiration (policy : EffectRefresh) (current incoming : XTime) : XTime :=
  match policy with
  | .Keep => current
  | .Replace =>
    refreshExtendStep (refreshLongestStep (refreshReplaceStep current incoming) incoming) incoming
  | .Longest => refreshExtendStep (refreshLongestStep current incoming) incoming
  | .Extend => refreshExtendStep current incoming

/-! ## Effect scheduling state (Arsenal.cpp: ApplyEffect / OnTickEffect) -/

/-- Effect application kinds (EffectPolicies.hpp). -/
inductive EffectApplication : Type
| Instant
| Temporary
| Permanent
deriving DecidableEq, Repr

/-- Effect expiration policies (EffectPolicies.hpp). -/
inductive EffectExpiration : Type
| All
| Single
| Tick
deriving DecidableEq, Repr

/-- The scheduling fields of an `EffectData` instance.  The stack count is
a `UInt16` in C++, modelled as `ℕ` (no claim below exercises the wrap at
zero, and the decrements in `OnTickEffect` are modelled with truncated
subtraction). -/
structure EffectInst : Type where
  interval : XTime
  expiration : XTime
  period : ℚ
  duration : ℚ
  stack : ℕ
deriving DecidableEq, Repr

/-- The timestamp initialisation performed by `Arsenal::ApplyEffect` for a
`Temporary` or `Permanent` effect (Arsenal.cpp lines 96-120), given the
resolved duration and period expressions: a temporary instance stores the
duration and expires at `Timestamp + Duration`, a permanent one expires at
`kInfinity`; the next-tick interval is `Timestamp + Period` when the
period is positive and the expiration otherwise. -/
def applyEffectSchedule (application : EffectApplication) (duration period : ℚ)
    (stack : ℕ) (timestamp : ℚ) : EffectInst :=
  let created : EffectInst :=
    { interval := .fin 0, expiration := .fin 0, period := 0, duration := 0, stack := stack }
  let timed :=
    if application = .Temporary then
      { created with duration := duration, expiration := .fin (timestamp + duration) }
    else
      { created with expiration := .inf }
  let withPeriod := { timed with period := period }
  if 0 < period then
    { withPeriod with interval := .fin (timestamp + period) }
  else
    { withPeriod with interval := withPeriod.expiration }

/-- The scheduler-state portion of `Arsenal::OnTickEffect(Time, Effect)`
(Arsenal.cpp lines 257-318).  The stat-modifier side effects
(`RevertEffectModifiers` / `ApplyEffectModifiers` / observation upkeep)
touch only the stat set, not the effect scheduling state, and are elided.
Returns `(remove, updated instance)`; `remove = true` tells the caller
(`EffectSet::Poll`) to free the instance and drop it from the active
list. -/
def onTickSchedule (policy : EffectExpiration) (now : ℚ) (e : EffectInst) :
    Bool × EffectInst :=
  if XTime.le e.expiration e.interval then
    let stackAfter :=
      match policy with
      | .Single => e.stack - 1
      | .All => 0
      | .Tick => e.stack
    if 0 < stackAfter then
      let expirationAfter : XTime := .fin (now + e.duration)
      let intervalAfter : XTime :=
        if 0 < e.period then .fin (now + e.period) else expirationAfter
      (false,
        { e with stack := stackAfter, expiration := expirationAfter, interval := intervalAfter })
    else
      (true, { e with stack := stackAfter })
  else
    let ticked := { e with interval := .fin (now + e.period) }
    (false,
      if policy = .Tick then { ticked with stack := ticked.stack - 1 } else ticked)

/-! ## The effect set (EffectSet.hpp: Poll / FindBestPosition) -/

/-- The effect registry (the `Catalog` of instances) as an association
list id ↦ instance, plus the active list of ids in stored front-to-back
order (descending interval, soonest at the back). -/
structure EffectSetState : Type where
  registry : List (ℕ × EffectInst)
  actives : List ℕ
deriving DecidableEq, Repr

/-- Registry access `mRegistry[id]` (total, with a default for absent
ids; the modelled scenarios only access live ids). -/
def fetchInst (registry : List (ℕ × EffectInst)) (id : ℕ) : EffectInst :=
  (assocLookup registry id).getD
    { interval := .fin 0, expiration := .fin 0, period := 0, duration := 0, stack := 0 }

/-- `mRegistry.Free(id)`. -/
def freeInst : List (ℕ × EffectInst) → ℕ → List (ℕ × EffectInst)
  | [], _ => []
  | p :: t, id => if p.1 = id then freeInst t id else p :: freeInst t id

/-- In-place mutation of the registry entry for `id` (the C++ `Action`
mutates the instance through a reference). -/
def updateInst (registry : List (ℕ × EffectInst)) (id : ℕ) (e : EffectInst) :
    List (ℕ × EffectInst) :=
  registry.map (fun p => if p.1 = id then (p.1, e) else p)

/-- The binary-search loop of `std::upper_bound` / `std::ranges::upper_bound`
over indices `[first, first + len)`: narrow to the first index whose
element satisfies the predicate, assuming the range is partitioned. -/
def ubSearch (pred : ℕ → Prop) [DecidablePred pred] (l : List ℕ) : ℕ → ℕ → ℕ
  | first, 0 => first
  | first, len + 1 =>
    let half := (len + 1) / 2
    if pred (listNth l (first + half)) then
      ubSearch pred l first half
    else
      ubSearch pred l (first + half + 1) (len - half)
termination_by _ len => len
decreasing_by
· exact Nat.div_lt_self (Nat.succ_pos len) one_lt_two
· omega

/-- `EffectSet::FindBestPosition(Instance)`: the upper-bound position (as
an index into the active list) of the instance under the comparator
`A.GetInterval() >= B.GetInterval()`, evaluated against the current
registry. -/
def findBestPosition (registry : List (ℕ × EffectInst)) (actives : List ℕ)
    (inst : EffectInst) : ℕ :=
  ubSearch (fun other => XTime.le (fetchInst registry other).interval inst.interval)
    actives 0 actives.length

/-- `std::rotate(Position, end - 1, end)`: move the last element of the
list in front of index `pos`. -/
def rotateLastTo (l : List ℕ) (pos : ℕ) : List ℕ :=
  l.take pos ++ l.getLastD 0 :: (l.drop pos).dropLast

/-- Insertion into a list sorted by descending interval, used to model the
`std::sort` fallback of `Poll` (the comparator is
`First.GetInterval() >= Second.GetInterval()`). -/
def insertByIntervalDesc (registry : List (ℕ × EffectInst)) (id : ℕ) :
    List ℕ → List ℕ
  | [] => [id]
  | x :: xs =>
    if XTime.le (fetchInst registry x).interval (fetchInst registry id).interval then
      id :: x :: xs
    else
      x :: insertByIntervalDesc registry id xs

/-- The full re-sort branch of `Poll` (`std::sort` with the descending
interval comparator), modelled as an insertion sort. -/
def sortByIntervalDesc (registry : List (ℕ × EffectInst)) (l : List ℕ) : List ℕ :=
  l.foldr (insertByIntervalDesc registry) []

/-- The reverse iteration of `EffectSet::Poll` (EffectSet.hpp lines
49-74): starting at `Index = size - 1`, process the instance at `Index`
while its interval has passed, free-and-erase it when the action says so,
otherwise record it in the bounded `Threshold` buffer (capacity 6); break
at the first instance whose interval is still in the future.  `i` is
`Index + 1`. -/
def pollLoop (time : ℚ) (action : EffectInst → Bool × EffectInst) :
    EffectSetState → ℕ → List ℕ → EffectSetState × List ℕ
  | st, 0, threshold => (st, threshold)
  | st, i + 1, threshold =>
    let id := listNth st.actives i
    let inst := fetchInst st.registry id
    if XTime.lt (.fin time) inst.interval then
      (st, threshold)
    else
      let step := action inst
      if step.1 then
        pollLoop time action
          { registry := freeInst st.registry id, actives := st.actives.eraseIdx i }
          i threshold
      else
        pollLoop time action
          { st with registry := updateInst st.registry id step.2 }
          i (if threshold.length = 6 then threshold else threshold ++ [id])

/-- The repositioning pass after the loop of `Poll` (EffectSet.hpp lines
76-98): re-sort everything when the `Threshold` buffer filled up,
otherwise reposition each recorded survivor with `FindBestPosition` and
`std::rotate(Position, end - 1, end)` (skipping a position at `end`). -/
def pollFinish (st : EffectSetState) (threshold : List ℕ) : EffectSetState :=
  if threshold.length = 6 then
    { st with actives := sortByIntervalDesc st.registry st.actives }
  else
    threshold.foldl
      (fun acc id =>
        let pos := findBestPosition acc.registry acc.actives (fetchInst acc.registry id)
        if pos ≠ acc.actives.length then { acc with actives := rotateLastTo acc.actives pos }
        else acc)
      st

/-- `EffectSet::Poll(Time, Action)`. -/
def effectPoll (time : ℚ) (action : EffectInst → Bool × EffectInst)
    (st : EffectSetState) : EffectSetState :=
  let looped := pollLoop time action st st.actives.length []
  pollFinish looped.1 looped.2

/-- The ordering invariant of the active list: stored front-to-back in
descending next-event (interval) order, so the soonest instance sits at
the processing end. -/
def activesSortedDesc (registry : List (ℕ × EffectInst)) (l : List ℕ) : Prop :=
  l.Pairwise (fun a b => XTime.le (fetchInst registry b).interval (fetchInst registry a).interval)

instance (registry : List (ℕ × EffectInst)) (l : List ℕ) :
    Decidable (activesSortedDesc registry l) := by
  unfold activesSortedDesc
  exact List.instDecidablePairwise l

/-! ## StatSet dependency notification (StatSet.hpp: NotifyDependencies / Poll) -/

/-- The runtime state of a `StatSet` as far as dependency notification is
concerned: the registry maps each instantiated stat handle to its dirty
flag (the remaining `Stat` fields are irrelevant to `NotifyDependencies`),
`marks` logs every `SetDirty` call in order, `observers` lists the handles
whose multicast delegate list is non-empty, and `buffered` is the
`mNotifications` set (as an insertion-ordered duplicate-free list). -/
structure NotifySt : Type where
  registry : List (ℕ × Bool)
  marks : List ℕ
  observers : List ℕ
  buffered : List ℕ
deriving DecidableEq, Repr

/-- The dependency table `mDependencies` (handle ↦ its direct dependents);
lookup of an absent handle yields no dependents. -/
def depsOf (tbl : List (ℕ × List ℕ)) (h : ℕ) : List ℕ :=
  (assocLookup tbl h).getD []

/-- `mRegistry.find(Handle)` restricted to the dirty flag. -/
def lookupFlag (st : NotifySt) (h : ℕ) : Option Bool :=
  assocLookup st.registry h

/-- The handle is instantiated and marked dirty. -/
def dirtyP (st : NotifySt) (h : ℕ) : Prop := lookupFlag st h = some true

/-- `Child->SetDirty()` on handle `h`, with the call appended to the
mark log. -/
def markDirty (st : NotifySt) (h : ℕ) : NotifySt :=
  { st with
    registry := st.registry.map (fun p => if p.1 = h then (p.1, true) else p)
    marks := st.marks ++ [h] }

/-- The tail of `StatSet::NotifyDependencies`: when the source has a
non-empty delegate list, `mNotifications.emplace(Source)`. -/
def bufferSource (st : NotifySt) (src : ℕ) : NotifySt :=
  if src ∈ st.observers then
    { st with buffered := if src ∈ st.buffered then st.buffered else st.buffered ++ [src] }
  else st

mutual

/-- `StatSet::NotifyDependencies(Source)` (StatSet.hpp lines 121-149):
walk the direct dependents of the source, and for every instantiated,
not-yet-dirty dependent mark it dirty and recurse; finally buffer the
source for the per-frame observer poll when it is observed.  The C++
recursion carries no fuel; the explicit fuel returns `none` on exhaustion
and the termination theorem shows any fuel above the number of clean
registry entries suffices. -/
def notifyDeps (tbl : List (ℕ × List ℕ)) : ℕ → NotifySt → ℕ → Option NotifySt
  | 0, _, _ => none
  | fuel + 1, st, src =>
    match notifyList tbl fuel st (depsOf tbl src) with
    | none => none
    | some st' => some (bufferSource st' src)
termination_by fuel _ _ => (fuel, 0)

/-- The `for (const StatHandle Dependent : Iterator->second)` loop body of
`NotifyDependencies`. -/
def notifyList (tbl : List (ℕ × List ℕ)) : ℕ → NotifySt → List ℕ → Option NotifySt
  | _, st, [] => some st
  | fuel, st, d :: ds =>
    match lookupFlag st d with
    | none => notifyList tbl fuel st ds
    | some true => notifyList tbl fuel st ds
    | some false =>
      match notifyDeps tbl fuel (markDirty st d) d with
      | none => none
      | some st' => notifyList tbl fuel st' ds
termination_by fuel _ ds => (fuel, ds.length + 1)

end

/-- The loop of `StatSet::Poll()`: for each buffered handle, broadcast it
when it has an observer entry. -/
def pollEmits (buffered observers : List ℕ) : List ℕ :=
  match buffered with
  | [] => []
  | h :: t =>
    if h ∈ observers then h :: pollEmits t observers else pollEmits t observers

/-- `StatSet::Poll()` (StatSet.hpp lines 37-47): broadcast every buffered
handle that has an observer entry, then clear the buffer.  Returns the
list of broadcast handles (in buffer order) with the post-state. -/
def statPoll (st : NotifySt) : List ℕ × NotifySt :=
  (pollEmits st.buffered st.observers, { st with buffered := [] })

/-- One stat handle depends (directly or transitively) on another:
`reaches tbl a b` holds when `b` is in the transitive closure of the
dependents of `a`. -/
def reaches (tbl : List (ℕ × List ℕ)) (a b : ℕ) : Prop :=
  Relation.TransGen (fun x y => y ∈ depsOf tbl x) a b

/-- Number of clean (not dirty) registry entries; the fuel bound for
`notifyDeps`. -/
def cleanCount (st : NotifySt) : ℕ :=
  st.registry.countP (fun p => !p.2)

/-- Pointwise registry evolution: keys are unchanged and dirty flags only
ever go from clean to dirty. -/
def RegLE (r r' : List (ℕ × Bool)) : Prop :=
  List.Forall₂ (fun p q => p.1 = q.1 ∧ (p.2 = true → q.2 = true)) r r'

/-- Every dependent recorded in the dependency table is instantiated.
`StatSet` only ever records a dependent when inserting its instance
(`GetOrInsert` → `InsertDependencies`), and instances are only removed by
`Clear`, which also clears the table, so this invariant holds in every
API-reachable state. -/
def notifyWF (tbl : List (ℕ × List ℕ)) (st : NotifySt) : Prop :=
  ∀ p ∈ tbl, ∀ d ∈ p.2, (lookupFlag st d).isSome

/-- Postcondition of one `NotifyDependencies`/loop call: the registry
evolves monotonically, observers are untouched, and the mark log is
extended by a duplicate-free batch of handles that were clean before,
are dirty after, satisfy the reachability bound `R`, and whose direct
dependents are all dirty after; moreover every handle dirty after was
dirty before or is in the batch. -/
def NotifyPost (tbl : List (ℕ × List ℕ)) (R : ℕ → Prop) (st st' : NotifySt) : Prop :=
  RegLE st.registry st'.registry ∧
  st'.observers = st.observers ∧
  ∃ batch, st'.marks = st.marks ++ batch ∧
    (∀ h ∈ batch, R h) ∧
    (∀ h ∈ batch, lookupFlag st h = some false) ∧
    (∀ h ∈ batch, dirtyP st' h) ∧
    batch.Nodup ∧
    (∀ h ∈ batch, ∀ d ∈ depsOf tbl h, dirtyP st' d) ∧
    (∀ h, dirtyP st' h → dirtyP st h ∨ h ∈ batch)

/-! ## Concrete example states used by counterexamples and witnesses -/

/-- The all-zero context (no other stats are consulted in the concrete
scenarios). -/
def ctxZero : ℕ → ℚ := fun _ => 0

/-- A Resource-category archetype with range [0, 100] and base 100. -/
def archResource : StatArchetype :=
  { category := .Resource, base := .value 100, minimum := .value 0
    maximum := .value 100, formula := none }

/-- An Attribute-category archetype with range [0, 100], base 0 and the
default formula. -/
def archAttribute : StatArchetype :=
  { category := .Attribute, base := .value 0, minimum := .value 0
    maximum := .value 100, formula := none }

/-- A resolved Resource stat instance sitting at 50. -/
def statResource50 : StatState :=
  { flat := 0, additive := 0, multiplier := 1, effective := 50, dirty := false }

/-- An Attribute stat instance with non-trivial accumulators. -/
def statAttributeW : StatState :=
  { flat := 3, additive := 4, multiplier := 5, effective := 6, dirty := true }

/-- The freshly resolved Attribute instance: `mkStat` after one
`Calculate` against `archAttribute` (cache 0, clean). -/
def statAttributeClean : StatState :=
  (mkStat.calculate archAttribute ctxZero).2

/-- Three active effects, descending interval order [10, 2, 1], far from
expiration, with periods 1, 17 and 1: the `Poll` failing input. -/
def regPollBug : List (ℕ × EffectInst) :=
  [(1, { interval := .fin 10, expiration := .fin 100, period := 1, duration := 50, stack := 1 }),
   (2, { interval := .fin 2, expiration := .fin 100, period := 17, duration := 50, stack := 1 }),
   (3, { interval := .fin 1, expiration := .fin 100, period := 1, duration := 50, stack := 1 })]

/-- The effect-set state for the `Poll` failing input. -/
def stPollBug : EffectSetState := { registry := regPollBug, actives := [1, 2, 3] }

/-- An effect set holding one single active instance with id 0. -/
def singleEffectSet (e : EffectInst) : EffectSetState :=
  { registry := [(0, e)], actives := [0] }

/-- An observed stat (handle 7) with no dependents, clean, nothing
buffered: the publish-pass counterexample state. -/
def stNotifyObs : NotifySt :=
  { registry := [(7, false)], marks := [], observers := [7], buffered := [] }

/-- `stNotifyObs` after `NotifyDependencies(7)`: handle 7 is buffered
although nothing about any stat changed. -/
def stNotifyObsAfter : NotifySt :=
  { registry := [(7, false)], marks := [], observers := [7], buffered := [7] }

/-- The diamond dependency table: 0 feeds 1 and 2, both feed 3. -/
def tblDiamond : List (ℕ × List ℕ) := [(0, [1, 2]), (1, [3]), (2, [3])]

/-- All four diamond stats instantiated and clean. -/
def stDiamond : NotifySt :=
  { registry := [(0, false), (1, false), (2, false), (3, false)]
    marks := [], observers := [], buffered := [] }

instance (arch : StatArchetype) (ctx : ℕ → ℚ) (s : StatState) :
    Decidable (StatInv arch ctx s) := by
  unfold StatInv
  infer_instance

instance (tbl : List (ℕ × List ℕ)) (st : NotifySt) :
    Decidable (notifyWF tbl st) := by
  unfold notifyWF
  infer_instance

instance (st : NotifySt) (h : ℕ) : Decidable (dirtyP st h) := by
  unfold dirtyP
  infer_instance


/-! # Theorems -/

/-- C1 (counterexample): the claim asserts that for every stat — of the
Resource category as well — and every operator except Replace, reverting
after applying restores the original state.  For a Resource stat at 50,
applying Flat 1 moves the clamped effective value to 51 and Revert is a
no-op (the whole Resource branch of `Stat::Modify` sits under
`if constexpr (Apply)`), so the round trip ends at 51, one full unit away
from the original — far beyond any floating-point tolerance. -/
theorem claim_C1_counterexample :
    ((statResource50.apply archResource ctxZero .Flat 1).revert archResource ctxZero .Flat 1).effective
      = statResource50.effective + 1 ∧
    (statResource50.apply archResource ctxZero .Flat 1).revert archResource ctxZero .Flat 1
      ≠ statResource50 := by
  norm_num [StatState.apply, StatState.revert, StatState.modify, StatState.setEffective,
    archResource, statResource50, ctxZero, StatInput.resolve, clampQ]

/-- C1 (amended): for Attribute-category stats, every operator except
Replace round-trips exactly — with a nonzero magnitude required for the
Multiplicative and Divisive operators; Resource-category stats are
excluded because their Revert is a no-op. -/
theorem claim_C1_amended (arch : StatArchetype) (ctx : ℕ → ℚ) (op : StatOperator)
    (m : ℚ) (s : StatState) (hcat : arch.category = .Attribute)
    (hop : op ≠ .Replace) (hm : op = .Multiplicative ∨ op = .Divisive → m ≠ 0) :
    (s.apply arch ctx op m).revert arch ctx op m = s := by
  cases op with
  | Flat =>
    simp [StatState.apply, StatState.revert, StatState.modify, hcat]
  | Additive =>
    simp [StatState.apply, StatState.revert, StatState.modify, hcat]
  | Multiplicative =>
    have hm' : m ≠ 0 := hm (Or.inl rfl)
    simp [StatState.apply, StatState.revert, StatState.modify, hcat]
    field_simp
  | Divisive =>
    have hm' : m ≠ 0 := hm (Or.inr rfl)
    simp [StatState.apply, StatState.revert, StatState.modify, hcat]
    field_simp
  | Replace => exact absurd rfl hop

/-- C1 (witness): the amended round trip at a concrete Attribute stat with
the Multiplicative operator and magnitude 2. -/
theorem claim_C1_witness :
    archAttribute.category = .Attribute ∧
    (StatOperator.Multiplicative ≠ StatOperator.Replace) ∧
    (statAttributeW.apply archAttribute ctxZero .Multiplicative 2).revert
        archAttribute ctxZero .Multiplicative 2 = statAttributeW :=
  ⟨rfl, by decide,
    claim_C1_amended archAttribute ctxZero .Multiplicative 2 statAttributeW rfl
      (by decide) (fun _ => by norm_num)⟩

/-- C10: for a Resource-category stat, Revert with any operator and any
magnitude is the identity on the whole instance state — accumulators,
cached effective value and dirty flag alike (`Stat::Modify<false>` skips
the entire Resource switch). -/
theorem claim_C10 (arch : StatArchetype) (ctx : ℕ → ℚ) (op : StatOperator)
    (m : ℚ) (s : StatState) (hcat : arch.category = .Resource) :
    s.revert arch ctx op m = s := by
  simp [StatState.revert, StatState.modify, hcat]

/-- C10 (witness): reverting Replace 3 on a concrete Resource stat leaves
it untouched. -/
theorem claim_C10_witness :
    archResource.category = .Resource ∧
    statResource50.revert archResource ctxZero .Replace 3 = statResource50 :=
  ⟨rfl, claim_C10 archResource ctxZero .Replace 3 statResource50 rfl⟩

/-- C2 (counterexample): the claimed invariant — dirty = false implies the
cache equals the archetype formula at the current accumulators — is
established by Calculate but is not preserved by Apply: applying Flat 5
to a freshly resolved Attribute stat mutates the flat accumulator without
setting the dirty flag or touching the cache, leaving a clean state with
a stale cache (0 against a formula value of 5). -/
theorem claim_C2_counterexample :
    StatInv archAttribute ctxZero statAttributeClean ∧
    (statAttributeClean.apply archAttribute ctxZero .Flat 5).dirty = false ∧
    ¬ StatInv archAttribute ctxZero (statAttributeClean.apply archAttribute ctxZero .Flat 5) := by
  norm_num [StatInv, statAttributeClean, mkStat, StatState.calculate, StatState.apply,
    StatState.modify, StatArchetype.calculate, statFormulaDefault, clampQ,
    StatInput.resolve, archAttribute, ctxZero]

/-- C2 (amended): the cache-coherence invariant is established by
Calculate, preserved by SetDirty (hence by NotifyDependencies, which only
sets dirty flags), and holds for a freshly constructed instance (as
produced by GetOrInsert, which is born dirty); Apply and Revert do not
preserve it. -/
theorem claim_C2_amended (arch : StatArchetype) (ctx : ℕ → ℚ) (s : StatState)
    (h : StatInv arch ctx s) :
    StatInv arch ctx (s.calculate arch ctx).2 ∧
    StatInv arch ctx s.setDirty ∧
    StatInv arch ctx mkStat := by
  refine ⟨?_, ?_, ?_⟩
  · unfold StatInv StatState.calculate at *
    cases hd : s.dirty with
    | true => simp [hd]
    | false => simpa [hd] using h
  · intro hc
    simp [StatState.setDirty] at hc
  · intro hc
    simp [mkStat] at hc

/-- C2 (witness): the amended invariant-preservation facts at the concrete
freshly resolved Attribute stat. -/
theorem claim_C2_witness :
    StatInv archAttribute ctxZero statAttributeClean ∧
    StatInv archAttribute ctxZero (statAttributeClean.calculate archAttribute ctxZero).2 ∧
    StatInv archAttribute ctxZero statAttributeClean.setDirty :=
  ⟨by norm_num [StatInv, statAttributeClean, mkStat, StatState.calculate],
    (claim_C2_amended archAttribute ctxZero statAttributeClean
      (by norm_num [StatInv, statAttributeClean, mkStat, StatState.calculate])).1,
    (claim_C2_amended archAttribute ctxZero statAttributeClean
      (by norm_num [StatInv, statAttributeClean, mkStat, StatState.calculate])).2.1⟩

/-- C5: the expiration merge of `EffectData::Merge` is a fallthrough
chain: Keep leaves the expiration unchanged; Replace assigns the incoming
value and then also runs the Longest and Extend statements, ending at
twice the incoming expiration; Longest takes the maximum and then also
adds the incoming expiration; Extend alone adds the incoming
expiration. -/
theorem claim_C5 (current incoming : XTime) :
    mergeExpiration .Keep current incoming = current ∧
    mergeExpiration .Replace current incoming = XTime.add incoming incoming ∧
    mergeExpiration .Longest current incoming
      = XTime.add (XTime.maxv current incoming) incoming ∧
    mergeExpiration .Extend current incoming = XTime.add current incoming := by
  refine ⟨rfl, ?_, rfl, rfl⟩
  cases incoming with
  | inf => rfl
  | fin q =>
    simp [mergeExpiration, refreshReplaceStep, refreshLongestStep, refreshExtendStep,
      XTime.maxv]

/-- C6 (counterexample): a Temporary effect with resolved duration 1 and
resolved period 2 applied at time 0 gets nextTick 2 but expiration 1, so
the claimed invariant nextTick ≤ expiration fails exactly when the
resolved period exceeds the resolved duration. -/
theorem claim_C6_counterexample :
    ((1 : ℚ) < 2) ∧
    ¬ XTime.le (applyEffectSchedule .Temporary 1 2 1 0).interval
        (applyEffectSchedule .Temporary 1 2 1 0).expiration := by
  norm_num [applyEffectSchedule, XTime.le]

/-- C6 (amended): nextTick ≤ expiration holds after `ApplyEffect` and
after the expiration refresh of `OnTickEffect` whenever the resolved
period is non-positive or does not exceed the resolved duration (for
Permanent instances the expiration is infinite, so it always holds), and
nextTick = expiration whenever the period is non-positive; when the
period exceeds a Temporary instance's duration the inequality fails, as
the counterexample shows. -/
theorem claim_C6_amended (app : EffectApplication) (d p : ℚ) (s : ℕ) (t : ℚ)
    (hp : p ≤ 0 ∨ p ≤ d) :
    (XTime.le (applyEffectSchedule app d p s t).interval
        (applyEffectSchedule app d p s t).expiration ∧
      (p ≤ 0 → (applyEffectSchedule app d p s t).interval
        = (applyEffectSchedule app d p s t).expiration)) ∧
    ∀ (policy : EffectExpiration) (now : ℚ) (e : EffectInst),
      XTime.le e.expiration e.interval → (onTickSchedule policy now e).1 = false →
      (e.period ≤ 0 ∨ e.period ≤ e.duration) →
      (XTime.le (onTickSchedule policy now e).2.interval
          (onTickSchedule policy now e).2.expiration ∧
        (e.period ≤ 0 → (onTickSchedule policy now e).2.interval
          = (onTickSchedule policy now e).2.expiration)) := by
  constructor
  · by_cases happ : app = .Temporary
    · by_cases hpos : 0 < p
      · have hpd : p ≤ d := by
          rcases hp with h | h
          · linarith
          · exact h
        constructor
        · simp only [applyEffectSchedule, happ, if_pos, if_true, hpos, XTime.le]
          simp [XTime.le]
          linarith
        · intro h0
          linarith
      · constructor
        · simp [applyEffectSchedule, happ, hpos, XTime.le]
        · intro _
          simp [applyEffectSchedule, happ, hpos]
    · by_cases hpos : 0 < p
      · constructor
        · simp [applyEffectSchedule, happ, hpos, XTime.le]
        · intro h0
          linarith
      · constructor
        · simp [applyEffectSchedule, happ, hpos, XTime.le]
        · intro _
          simp [applyEffectSchedule, happ, hpos]
  · intro policy now e hexp hrem hp2
    simp only [onTickSchedule, hexp, if_true] at hrem ⊢
    by_cases hpos :
        0 < (match policy with
              | EffectExpiration.Single => e.stack - 1
              | EffectExpiration.All => 0
              | EffectExpiration.Tick => e.stack)
    · simp only [hpos, if_true] at hrem ⊢
      by_cases hper : 0 < e.period
      · have hpd : e.period ≤ e.duration := by
          rcases hp2 with h | h
          · linarith
          · exact h
        constructor
        · simp [hper, XTime.le]
          linarith
        · intro h0
          linarith
      · constructor
        · simp [hper, XTime.le]
        · intro _
          simp [hper]
    · simp only [hpos, if_false] at hrem
      simp at hrem

/-- C6 (witness): the amended inequality at a Temporary effect with
duration 5 and period 2 applied at time 0. -/
theorem claim_C6_witness :
    ((2 : ℚ) ≤ 0 ∨ (2 : ℚ) ≤ 5) ∧
    XTime.le (applyEffectSchedule .Temporary 5 2 1 0).interval
      (applyEffectSchedule .Temporary 5 2 1 0).expiration :=
  ⟨Or.inr (by norm_num),
    (claim_C6_amended .Temporary 5 2 1 0 (Or.inr (by norm_num))).1.1⟩

/-- C8: `Arsenal::GetStat` is total; with no per-actor instance it returns
the archetype calculation at flat 0, additive 0, multiplier 1 — for an
archetype without a custom formula this is exactly the resolved base
clamped to the resolved min/max — and with an instance present it returns
the instance's resolved (`Calculate`) value. -/
theorem claim_C8 (archetypes : ℕ → StatArchetype) (ctx : ℕ → ℚ)
    (instances : List (ℕ × StatState)) (handle : ℕ)
    (hnone : assocLookup instances handle = none) :
    arsenalGetStat archetypes ctx instances handle
      = (archetypes handle).calculate ctx 0 0 1 ∧
    ((archetypes handle).formula = none →
      arsenalGetStat archetypes ctx instances handle
        = clampQ ((archetypes handle).base.resolve ctx)
            ((archetypes handle).minimum.resolve ctx)
            ((archetypes handle).maximum.resolve ctx)) ∧
    ∀ (other : List (ℕ × StatState)) (s : StatState),
      assocLookup other handle = some s →
      arsenalGetStat archetypes ctx other handle
        = (s.calculate (archetypes handle) ctx).1 := by
  refine ⟨?_, ?_, ?_⟩
  · unfold arsenalGetStat
    rw [hnone]
  · intro hf
    unfold arsenalGetStat
    rw [hnone]
    simp [StatArchetype.calculate, hf, statFormulaDefault]
  · intro other s hs
    unfold arsenalGetStat
    rw [hs]

/-- C8 (witness): with an empty instance map, `GetStat` of handle 0 is the
archetype default calculation. -/
theorem claim_C8_witness :
    assocLookup ([] : List (ℕ × StatState)) 0 = none ∧
    arsenalGetStat (fun _ => archResource) ctxZero [] 0
      = archResource.calculate ctxZero 0 0 1 :=
  ⟨rfl, (claim_C8 (fun _ => archResource) ctxZero [] 0 rfl).1⟩


/-- Helper: a `Poll` over a one-element active set whose instance is still
in the future leaves the set untouched. -/
theorem effectPoll_single_future (time : ℚ) (action : EffectInst → Bool × EffectInst)
    (e : EffectInst) (h : XTime.lt (.fin time) e.interval) :
    effectPoll time action (singleEffectSet e) = singleEffectSet e := by
  simp [effectPoll, singleEffectSet, pollLoop, pollFinish, fetchInst, assocLookup,
    listNth, h]

/-- Helper: a `Poll` over a one-element active set whose instance is due
and whose action requests removal frees the instance and empties the
active list. -/
theorem effectPoll_single_due_remove (time : ℚ) (action : EffectInst → Bool × EffectInst)
    (e : EffectInst) (h : ¬ XTime.lt (.fin time) e.interval)
    (hact : (action e).1 = true) :
    effectPoll time action (singleEffectSet e) = { registry := [], actives := [] } := by
  simp [effectPoll, singleEffectSet, pollLoop, pollFinish, fetchInst, assocLookup,
    listNth, freeInst, h, hact]

/-- Helper: the instance produced by `ApplyEffect` for a Temporary effect
with period 0: both timestamps sit at the expiration `t + d`. -/
theorem applyEffectSchedule_period_zero (d : ℚ) (s : ℕ) (t : ℚ) :
    applyEffectSchedule .Temporary d 0 s t
      = { interval := .fin (t + d), expiration := .fin (t + d)
          period := 0, duration := d, stack := s } := by
  norm_num [applyEffectSchedule]

/-- C7 (amended): a Temporary effect with duration d and period 0 applied
at time t as the only active instance is untouched by any Poll before
t + d, and the first Poll at or after t + d processes it once and — when
the Expiration policy zeroes the stack, i.e. policy All, or policy Single
with stack 1 — removes it from the active list and frees it, after which
no further processing can occur. -/
theorem claim_C7_amended (policy : EffectExpiration) (d t t1 t2 : ℚ) (s : ℕ)
    (hpol : policy = .All ∨ (policy = .Single ∧ s = 1))
    (h1 : t1 < t + d) (h2 : t + d ≤ t2) :
    effectPoll t1 (onTickSchedule policy t1)
        (singleEffectSet (applyEffectSchedule .Temporary d 0 s t))
      = singleEffectSet (applyEffectSchedule .Temporary d 0 s t) ∧
    effectPoll t2 (onTickSchedule policy t2)
        (singleEffectSet (applyEffectSchedule .Temporary d 0 s t))
      = { registry := [], actives := [] } := by
  rw [applyEffectSchedule_period_zero]
  constructor
  · apply effectPoll_single_future
    simp [XTime.lt]
    linarith
  · apply effectPoll_single_due_remove
    · simp [XTime.lt]
      linarith
    · rcases hpol with hA | ⟨hS, hs⟩
      · subst hA
        simp [onTickSchedule, XTime.le]
      · subst hS
        subst hs
        simp [onTickSchedule, XTime.le]

/-- C7 (witness): the amended behaviour at duration 1, period 0, stack 1,
policy All, applied at time 0, polled at time 1. -/
theorem claim_C7_witness :
    ((1 : ℚ) / 2 < 0 + 1) ∧ ((0 : ℚ) + 1 ≤ 1) ∧
    effectPoll 1 (onTickSchedule .All 1)
        (singleEffectSet (applyEffectSchedule .Temporary 1 0 1 0))
      = { registry := [], actives := [] } :=
  ⟨by norm_num, by norm_num,
    (claim_C7_amended .All 1 0 (1 / 2) 1 1 (Or.inl rfl) (by norm_num) (by norm_num)).2⟩

/-- C7 (counterexample): with Expiration policy Tick the stack is left
unchanged at expiration, so the same instance (duration 1, period 0,
stack 1, applied at 0) is refreshed rather than removed by the Poll at
time 1: it is still active afterwards with both timestamps moved to 2,
contradicting the claim that the instance is removed and freed regardless
of the archetype's Expiration policy. -/
theorem claim_C7_counterexample :
    (effectPoll 1 (onTickSchedule .Tick 1)
        (singleEffectSet (applyEffectSchedule .Temporary 1 0 1 0))).actives = [0] ∧
    fetchInst (effectPoll 1 (onTickSchedule .Tick 1)
        (singleEffectSet (applyEffectSchedule .Temporary 1 0 1 0))).registry 0
      = { interval := .fin 2, expiration := .fin 2, period := 0, duration := 1, stack := 1 } := by
  norm_num [effectPoll, pollLoop, pollFinish, singleEffectSet, applyEffectSchedule,
    onTickSchedule, fetchInst, assocLookup, listNth, updateInst, findBestPosition,
    ubSearch, rotateLastTo, XTime.le, XTime.lt, List.getLastD]

/-- C4 (code bug): the failing input is a legally sorted active list of
three periodic instances with next-event times [10, 2, 1] (front to
back) polled at time 3: the two due instances survive with new next-event
times 4 and 20, and the incremental repositioning pass — which rotates
the LAST element of the list to the found position, although only the
first repositioned survivor still sits at the end — produces the active
list [3, 1, 2] with next-event times [4, 10, 20] front to back, violating
the descending-order invariant; the subsequent Poll at time 5 then
processes nothing at all even though instance 3 (next event 4) is due. -/
theorem claim_C4_codebug :
    activesSortedDesc stPollBug.registry stPollBug.actives ∧
    (effectPoll 3 (onTickSchedule .All 3) stPollBug).actives = [3, 1, 2] ∧
    ¬ activesSortedDesc (effectPoll 3 (onTickSchedule .All 3) stPollBug).registry
        (effectPoll 3 (onTickSchedule .All 3) stPollBug).actives ∧
    (fetchInst (effectPoll 3 (onTickSchedule .All 3) stPollBug).registry 3).interval
      = .fin 4 ∧
    effectPoll 5 (onTickSchedule .All 5) (effectPoll 3 (onTickSchedule .All 3) stPollBug)
      = effectPoll 3 (onTickSchedule .All 3) stPollBug := by
  have hAT : ¬ (EffectExpiration.All = EffectExpiration.Tick) := by decide
  norm_num [effectPoll, pollLoop, pollFinish, onTickSchedule, stPollBug, regPollBug,
    fetchInst, freeInst, updateInst, findBestPosition, ubSearch, rotateLastTo,
    assocLookup, listNth, sortByIntervalDesc, insertByIntervalDesc, activesSortedDesc,
    XTime.le, XTime.lt, List.getLastD, hAT]

/-- C9 (counterexample): the publish pass does not re-resolve values or
compare against a buffered previous value — the notification buffer holds
bare handles.  A frame in which nothing changes (applying Flat 0 to a
Resource stat is the identity on the instance) still buffers the touched
handle 7 through `NotifyDependencies` and `Poll` still broadcasts it,
contradicting the claim that no broadcast happens when the value is
unchanged. -/
theorem claim_C9_counterexample :
    statResource50.apply archResource ctxZero .Flat 0 = statResource50 ∧
    notifyDeps [] 2 stNotifyObs 7 = some stNotifyObsAfter ∧
    (statPoll stNotifyObsAfter).1 = [7] := by
  refine ⟨?_, ?_, ?_⟩
  · norm_num [StatState.apply, StatState.modify, StatState.setEffective, archResource,
      statResource50, ctxZero, StatInput.resolve, clampQ]
  · simp [notifyDeps, notifyList, depsOf, assocLookup, bufferSource, stNotifyObs,
      stNotifyObsAfter]
  · simp [statPoll, pollEmits, stNotifyObsAfter]

/-- Helper: everything the publish loop emits comes from the buffer. -/
theorem pollEmits_subset (buffered observers : List ℕ) :
    ∀ x ∈ pollEmits buffered observers, x ∈ buffered := by
  induction buffered with
  | nil => simp [pollEmits]
  | cons h t ih =>
    intro x hx
    by_cases hm : h ∈ observers
    · simp [pollEmits, hm] at hx
      rcases hx with hx | hx
      · simp [hx]
      · exact List.mem_cons_of_mem _ (ih x hx)
    · simp [pollEmits, hm] at hx
      exact List.mem_cons_of_mem _ (ih x hx)

/-- Helper: the publish loop emits each buffered handle at most once. -/
theorem pollEmits_nodup (buffered observers : List ℕ) (h : buffered.Nodup) :
    (pollEmits buffered observers).Nodup := by
  induction buffered with
  | nil => simp [pollEmits]
  | cons x t ih =>
    rcases List.nodup_cons.mp h with ⟨hx, ht⟩
    by_cases hm : x ∈ observers
    · simp only [pollEmits, hm, if_true]
      exact List.nodup_cons.mpr ⟨fun hc => hx (pollEmits_subset t observers x hc), ih ht⟩
    · simp only [pollEmits, hm, if_false]
      exact ih ht

/-- C9 (amended): the publish pass broadcasts each buffered handle at most
once per frame (the buffer is a duplicate-free set and is cleared by the
pass), and buffering through `NotifyDependencies` is idempotent within a
frame — an observed handle touched many times is buffered once; no value
re-resolution or previous/current comparison takes place, so a broadcast
occurs even when the value is unchanged. -/
theorem claim_C9_amended (st : NotifySt) (h : st.buffered.Nodup) :
    (statPoll st).1.Nodup ∧
    (statPoll st).2.buffered = [] ∧
    (∀ src, (bufferSource st src).buffered.Nodup) ∧
    (∀ src, src ∈ st.observers → src ∈ (bufferSource st src).buffered) ∧
    (∀ src, bufferSource (bufferSource st src) src = bufferSource st src) := by
  refine ⟨pollEmits_nodup _ _ h, rfl, ?_, ?_, ?_⟩
  · intro src
    unfold bufferSource
    by_cases ho : src ∈ st.observers
    · by_cases hb : src ∈ st.buffered
      · simp [ho, hb, h]
      · simp [ho, hb, List.nodup_append, h]
    · simp [ho, h]
  · intro src ho
    unfold bufferSource
    by_cases hb : src ∈ st.buffered
    · simp [ho, hb]
    · simp [ho, hb]
  · intro src
    unfold bufferSource
    by_cases ho : src ∈ st.observers
    · by_cases hb : src ∈ st.buffered
      · simp [ho, hb]
      · simp [ho, hb]
    · simp [ho]

/-- C9 (witness): the amended publish-pass facts at the concrete buffered
state of the counterexample. -/
theorem claim_C9_witness :
    stNotifyObsAfter.buffered.Nodup ∧
    (statPoll stNotifyObsAfter).1.Nodup ∧
    (statPoll stNotifyObsAfter).2.buffered = [] :=
  ⟨by simp [stNotifyObsAfter],
    (claim_C9_amended stNotifyObsAfter (by simp [stNotifyObsAfter])).1,
    (claim_C9_amended stNotifyObsAfter (by simp [stNotifyObsAfter])).2.1⟩


/-! ## Dependency-notification development (C3) -/

/-- Helper: a successful association lookup returns an entry of the
list. -/
theorem assocLookup_mem {A : Type} (l : List (ℕ × A)) (k : ℕ) (v : A)
    (h : assocLookup l k = some v) : (k, v) ∈ l := by
  induction l with
  | nil => simp [assocLookup] at h
  | cons p t ih =>
    by_cases hk : p.1 = k
    · simp [assocLookup, hk] at h
      subst hk
      subst h
      exact List.mem_cons_self _ _
    · simp [assocLookup, hk] at h
      exact List.mem_cons_of_mem _ (ih h)

/-- Helper: registry evolution is reflexive. -/
theorem regLE_refl (r : List (ℕ × Bool)) : RegLE r r := by
  induction r with
  | nil => exact List.Forall₂.nil
  | cons p t ih => exact List.Forall₂.cons ⟨rfl, fun hb => hb⟩ ih

/-- Helper: registry evolution is transitive. -/
theorem regLE_trans {a b c : List (ℕ × Bool)} (h1 : RegLE a b) (h2 : RegLE b c) :
    RegLE a c := by
  induction h1 generalizing c with
  | nil =>
    cases h2
    exact List.Forall₂.nil
  | cons hpq hrest ih =>
    cases h2 with
    | cons hqc hrest2 =>
      exact List.Forall₂.cons ⟨hpq.1.trans hqc.1, fun hb => hqc.2 (hpq.2 hb)⟩ (ih hrest2)

/-- Helper: a dirty entry stays dirty along registry evolution. -/
theorem regLE_lookup_some_true {r r' : List (ℕ × Bool)} (h : RegLE r r') (k : ℕ)
    (hk : assocLookup r k = some true) : assocLookup r' k = some true := by
  induction h with
  | nil => simp [assocLookup] at hk
  | @cons p q t t' hpq hrest ih =>
    by_cases hp : p.1 = k
    · simp [assocLookup, hp] at hk
      simp [assocLookup, hpq.1 ▸ hp, hpq.2 hk]
    · simp [assocLookup, hp] at hk
      have hq : ¬ (q.1 = k) := by
        rw [← hpq.1]
        exact hp
      simpa [assocLookup, hq] using ih hk

/-- Helper: a clean entry after registry evolution was clean before. -/
theorem regLE_lookup_back_false {r r' : List (ℕ × Bool)} (h : RegLE r r') (k : ℕ)
    (hk : assocLookup r' k = some false) : assocLookup r k = some false := by
  induction h with
  | nil => simp [assocLookup] at hk
  | @cons p q t t' hpq hrest ih =>
    by_cases hp : p.1 = k
    · have hq : q.1 = k := hpq.1 ▸ hp
      simp [assocLookup, hq] at hk
      simp [assocLookup, hp]
      cases hb : p.2 with
      | false => rfl
      | true => exact absurd (hpq.2 hb) (by simp [hk])
    · have hq : ¬ (q.1 = k) := by
        rw [← hpq.1]
        exact hp
      simp [assocLookup, hq] at hk
      simpa [assocLookup, hp] using ih hk

/-- Helper: registry evolution preserves which handles are instantiated. -/
theorem regLE_lookup_isSome {r r' : List (ℕ × Bool)} (h : RegLE r r') (k : ℕ) :
    (assocLookup r' k).isSome = (assocLookup r k).isSome := by
  induction h with
  | nil => simp [assocLookup]
  | @cons p q t t' hpq hrest ih =>
    by_cases hp : p.1 = k
    · simp [assocLookup, hp, hpq.1 ▸ hp]
    · have hq : ¬ (q.1 = k) := by
        rw [← hpq.1]
        exact hp
      simpa [assocLookup, hp, hq] using ih

/-- Helper: registry evolution can only reduce the number of clean
entries. -/
theorem regLE_countP_le {r r' : List (ℕ × Bool)} (h : RegLE r r') :
    r'.countP (fun p => !p.2) ≤ r.countP (fun p => !p.2) := by
  induction h with
  | nil => simp
  | @cons p q t t' hpq hrest ih =>
    rw [List.countP_cons, List.countP_cons]
    cases hb : p.2 with
    | true => simp [hpq.2 hb, hb, ih]
    | false =>
      cases hq : q.2 with
      | true =>
        simp [hb, hq]
        omega
      | false =>
        simp [hb, hq]
        omega


/-- Helper: the list-level effect of `SetDirty` on the registry. -/
theorem mapMark_regLE (r : List (ℕ × Bool)) (h : ℕ) :
    RegLE r (r.map (fun p => if p.1 = h then (p.1, true) else p)) := by
  induction r with
  | nil => exact List.Forall₂.nil
  | cons p t ih =>
    refine List.Forall₂.cons ?_ ih
    by_cases hp : p.1 = h
    · simp [hp]
    · simp [hp]

/-- Helper: marking a stat dirty is a registry evolution. -/
theorem markDirty_regLE (st : NotifySt) (h : ℕ) :
    RegLE st.registry (markDirty st h).registry :=
  mapMark_regLE st.registry h

/-- Helper, list level: after `SetDirty` the marked handle is dirty when
it is instantiated. -/
theorem mapMark_lookup_self (r : List (ℕ × Bool)) (h : ℕ) (b : Bool)
    (hb : assocLookup r h = some b) :
    assocLookup (r.map (fun p => if p.1 = h then (p.1, true) else p)) h = some true := by
  induction r with
  | nil => simp [assocLookup] at hb
  | cons p t ih =>
    by_cases hp : p.1 = h
    · simp [assocLookup, hp]
    · simp only [assocLookup, hp, if_false] at hb
      simp only [List.map_cons, assocLookup, hp, if_false]
      exact ih hb

/-- Helper: after `SetDirty` the marked handle is dirty. -/
theorem markDirty_lookup_self (st : NotifySt) (h : ℕ) (b : Bool)
    (hb : lookupFlag st h = some b) :
    lookupFlag (markDirty st h) h = some true :=
  mapMark_lookup_self st.registry h b hb

/-- Helper, list level: `SetDirty` leaves every other handle unchanged. -/
theorem mapMark_lookup_ne (r : List (ℕ × Bool)) (h k : ℕ) (hk : ¬ (k = h)) :
    assocLookup (r.map (fun p => if p.1 = h then (p.1, true) else p)) k
      = assocLookup r k := by
  induction r with
  | nil => rfl
  | cons p t ih =>
    obtain ⟨pk, pb⟩ := p
    simp only [List.map_cons]
    by_cases hph : pk = h
    · have hpk : ¬ (pk = k) := fun hc => hk (hc ▸ hph)
      rw [if_pos hph]
      simp only [assocLookup]
      rw [if_neg hpk, if_neg hpk]
      exact ih
    · rw [if_neg hph]
      simp only [assocLookup]
      by_cases hpk : pk = k
      · rw [if_pos hpk, if_pos hpk]
      · rw [if_neg hpk, if_neg hpk]
        exact ih

/-- Helper: `SetDirty` leaves every other handle unchanged. -/
theorem markDirty_lookup_ne (st : NotifySt) (h k : ℕ) (hk : ¬ (k = h)) :
    lookupFlag (markDirty st h) k = lookupFlag st k :=
  mapMark_lookup_ne st.registry h k hk

/-- Helper, list level: marking a clean entry strictly decreases the
number of clean entries. -/
theorem mapMark_countP_lt (r : List (ℕ × Bool)) (h : ℕ)
    (hc : assocLookup r h = some false) :
    (r.map (fun p => if p.1 = h then (p.1, true) else p)).countP (fun p => !p.2)
      < r.countP (fun p => !p.2) := by
  induction r with
  | nil => simp [assocLookup] at hc
  | cons p t ih =>
    obtain ⟨pk, pb⟩ := p
    by_cases hph : pk = h
    · subst hph
      have hpb : pb = false := by
        have : assocLookup ((pk, pb) :: t) pk = some pb := by simp [assocLookup]
        rw [this] at hc
        simpa using hc
      subst hpb
      have hle := regLE_countP_le (mapMark_regLE t pk)
      simp [List.countP_cons, List.countP_map] at hle ⊢
      omega
    · have hct : assocLookup t h = some false := by
        have : assocLookup ((pk, pb) :: t) h = assocLookup t h := by
          simp [assocLookup, hph]
        rw [this] at hc
        exact hc
      have := ih hct
      cases pb with
      | true => simpa [List.countP_cons, hph] using this
      | false => simpa [List.countP_cons, hph] using this

/-- Helper: marking a clean stat strictly decreases the clean count. -/
theorem markDirty_cleanCount_lt (st : NotifySt) (h : ℕ)
    (hc : lookupFlag st h = some false) :
    cleanCount (markDirty st h) < cleanCount st :=
  mapMark_countP_lt st.registry h hc

/-- Helper: well-formedness only depends on which handles are
instantiated, so it transports along registry evolution. -/
theorem notifyWF_of_regLE (tbl : List (ℕ × List ℕ)) (st st' : NotifySt)
    (hr : RegLE st.registry st'.registry) (hwf : notifyWF tbl st) :
    notifyWF tbl st' := by
  intro p hp d hd
  show (assocLookup st'.registry d).isSome
  rw [regLE_lookup_isSome hr]
  exact hwf p hp d hd

/-- Helper: observer buffering leaves registry, marks and observers
untouched. -/
theorem bufferSource_fields (st : NotifySt) (src : ℕ) :
    (bufferSource st src).registry = st.registry ∧
    (bufferSource st src).marks = st.marks ∧
    (bufferSource st src).observers = st.observers := by
  unfold bufferSource
  split_ifs <;> exact ⟨rfl, rfl, rfl⟩

/-- Helper: the trivial (empty-batch) postcondition. -/
theorem notifyPost_refl (tbl : List (ℕ × List ℕ)) (R : ℕ → Prop) (st : NotifySt) :
    NotifyPost tbl R st st :=
  ⟨regLE_refl _, rfl, [], by simp, by simp, by simp, by simp, List.nodup_nil,
    by simp, fun h hd => Or.inl hd⟩

/-- Helper: the postcondition composes. -/
theorem notifyPost_trans (tbl : List (ℕ × List ℕ)) (R : ℕ → Prop)
    (st st' st'' : NotifySt) (h1 : NotifyPost tbl R st st')
    (h2 : NotifyPost tbl R st' st'') : NotifyPost tbl R st st'' := by
  obtain ⟨hr1, ho1, b1, hm1, hR1, hc1, hd1, hn1, hh1, hback1⟩ := h1
  obtain ⟨hr2, ho2, b2, hm2, hR2, hc2, hd2, hn2, hh2, hback2⟩ := h2
  refine ⟨regLE_trans hr1 hr2, ho2.trans ho1, b1 ++ b2, ?_, ?_, ?_, ?_, ?_, ?_, ?_⟩
  · rw [hm2, hm1, List.append_assoc]
  · intro h hd
    rcases List.mem_append.mp hd with hd | hd
    · exact hR1 h hd
    · exact hR2 h hd
  · intro h hd
    rcases List.mem_append.mp hd with hd | hd
    · exact hc1 h hd
    · exact regLE_lookup_back_false hr1 h (hc2 h hd)
  · intro h hd
    rcases List.mem_append.mp hd with hd | hd
    · exact regLE_lookup_some_true hr2 h (hd1 h hd)
    · exact hd2 h hd
  · refine List.Nodup.append hn1 hn2 ?_
    intro h hd1' hd2'
    have hdirty : lookupFlag st' h = some true := hd1 h hd1'
    have hclean : lookupFlag st' h = some false := hc2 h hd2'
    rw [hclean] at hdirty
    simp at hdirty
  · intro h hd d hdep
    rcases List.mem_append.mp hd with hd | hd
    · exact regLE_lookup_some_true hr2 d (hh1 h hd d hdep)
    · exact hh2 h hd d hdep
  · intro h hdirty
    rcases hback2 h hdirty with hd | hd
    · rcases hback1 h hd with hd' | hd'
      · exact Or.inl hd'
      · exact Or.inr (List.mem_append.mpr (Or.inl hd'))
    · exact Or.inr (List.mem_append.mpr (Or.inr hd))

/-- Helper: the postcondition is monotone in the reachability bound. -/
theorem notifyPost_mono_R (tbl : List (ℕ × List ℕ)) (R R' : ℕ → Prop)
    (st st' : NotifySt) (hRR : ∀ h, R h → R' h) (h : NotifyPost tbl R st st') :
    NotifyPost tbl R' st st' := by
  obtain ⟨hr, ho, b, hm, hR, hc, hd, hn, hh, hback⟩ := h
  exact ⟨hr, ho, b, hm, fun h hd => hRR h (hR h hd), hc, hd, hn, hh, hback⟩

/-- Helper: observer buffering satisfies the empty-batch postcondition. -/
theorem notifyPost_buffer (tbl : List (ℕ × List ℕ)) (R : ℕ → Prop)
    (st : NotifySt) (src : ℕ) : NotifyPost tbl R st (bufferSource st src) := by
  obtain ⟨hreg, hmarks, hobs⟩ := bufferSource_fields st src
  refine ⟨hreg ▸ regLE_refl _, hobs, [], by simp [hmarks], by simp, by simp, by simp,
    List.nodup_nil, by simp, ?_⟩
  intro h hd
  refine Or.inl ?_
  show assocLookup st.registry h = some true
  have hd' : assocLookup (bufferSource st src).registry h = some true := hd
  rw [hreg] at hd'
  exact hd'

/-- Helper: prepending the marking of a clean dependent to a completed
recursive notification yields the postcondition from the pre-mark
state. -/
theorem notifyPost_mark_step (tbl : List (ℕ × List ℕ)) (R : ℕ → Prop)
    (st st'' : NotifySt) (d : ℕ)
    (hclean : lookupFlag st d = some false)
    (hR : R d)
    (hpost : NotifyPost tbl R (markDirty st d) st'')
    (hdeps : ∀ e ∈ depsOf tbl d, dirtyP st'' e) :
    NotifyPost tbl R st st'' := by
  obtain ⟨hr, ho, b, hm, hRb, hc, hd, hn, hh, hback⟩ := hpost
  have hmark : RegLE st.registry (markDirty st d).registry := markDirty_regLE st d
  have hselfmark : lookupFlag (markDirty st d) d = some true :=
    markDirty_lookup_self st d false hclean
  refine ⟨regLE_trans hmark hr, ho, d :: b, ?_, ?_, ?_, ?_, ?_, ?_, ?_⟩
  · rw [hm]
    show (st.marks ++ [d]) ++ b = st.marks ++ d :: b
    rw [List.append_assoc]
    rfl
  · intro h hd'
    rcases List.mem_cons.mp hd' with hd' | hd'
    · exact hd' ▸ hR
    · exact hRb h hd'
  · intro h hd'
    rcases List.mem_cons.mp hd' with hd' | hd'
    · exact hd' ▸ hclean
    · have hcb : lookupFlag (markDirty st d) h = some false := hc h hd'
      by_cases hhd : h = d
      · rw [hhd, hselfmark] at hcb
        simp at hcb
      · rw [markDirty_lookup_ne st d h hhd] at hcb
        exact hcb
  · intro h hd'
    rcases List.mem_cons.mp hd' with hd' | hd'
    · subst hd'
      exact regLE_lookup_some_true hr h hselfmark
    · exact hd h hd'
  · refine List.nodup_cons.mpr ⟨?_, hn⟩
    intro hdb
    have hcb := hc d hdb
    rw [hselfmark] at hcb
    simp at hcb
  · intro h hd' e hdep
    rcases List.mem_cons.mp hd' with hd' | hd'
    · exact hdeps e (hd' ▸ hdep)
    · exact hh h hd' e hdep
  · intro h hdirty
    rcases hback h hdirty with hd' | hd'
    · by_cases hhd : h = d
      · exact Or.inr (List.mem_cons.mpr (Or.inl hhd))
      · rw [show dirtyP (markDirty st d) h = (lookupFlag (markDirty st d) h = some true)
            from rfl, markDirty_lookup_ne st d h hhd] at hd'
        exact Or.inl hd'
    · exact Or.inr (List.mem_cons.mpr (Or.inr hd'))


/-- Helper, main induction: with enough fuel (more than the number of
clean registry entries) and a well-formed table, `NotifyDependencies`
succeeds and satisfies the postcondition: registered marks are exactly a
duplicate-free batch of handles reachable from the source, every direct
dependent of the source ends dirty, and the clean count never grows. -/
theorem notifySpec_all (tbl : List (ℕ × List ℕ)) : ∀ fuel : ℕ,
    ∀ st src, notifyWF tbl st → cleanCount st < fuel →
      ∃ st', notifyDeps tbl fuel st src = some st' ∧
        NotifyPost tbl (reaches tbl src) st st' ∧
        (∀ d ∈ depsOf tbl src, dirtyP st' d) ∧
        cleanCount st' ≤ cleanCount st := by
  intro fuel
  induction fuel with
  | zero =>
    intro st src hwf hfc
    exact absurd hfc (Nat.not_lt_zero _)
  | succ fuel ih =>
    have hlist : ∀ (src : ℕ) (ds : List ℕ) (st : NotifySt), notifyWF tbl st →
        cleanCount st ≤ fuel → (∀ d ∈ ds, d ∈ depsOf tbl src) →
        ∃ st', notifyList tbl fuel st ds = some st' ∧
          NotifyPost tbl (reaches tbl src) st st' ∧
          (∀ d ∈ ds, dirtyP st' d) ∧
          cleanCount st' ≤ cleanCount st := by
      intro src ds
      induction ds with
      | nil =>
        intro st hwf hfc hds
        exact ⟨st, by simp [notifyList], notifyPost_refl tbl _ st, by simp, le_refl _⟩
      | cons d ds ihds =>
        intro st hwf hfc hds
        have hdmem : d ∈ depsOf tbl src := hds d (List.mem_cons_self _ _)
        have hsome : (lookupFlag st d).isSome := by
          cases htbl : assocLookup tbl src with
          | none =>
            rw [show depsOf tbl src = [] from by simp [depsOf, htbl]] at hdmem
            simp at hdmem
          | some ds0 =>
            have hmem := assocLookup_mem tbl src ds0 htbl
            have hd0 : d ∈ ds0 := by simpa [depsOf, htbl] using hdmem
            exact hwf (src, ds0) hmem d hd0
        cases hflag : lookupFlag st d with
        | none =>
          rw [hflag] at hsome
          simp at hsome
        | some b =>
          cases b with
          | true =>
            obtain ⟨st', heq, hpost, hdirty, hcc⟩ :=
              ihds st hwf hfc (fun e he => hds e (List.mem_cons_of_mem _ he))
            refine ⟨st', ?_, hpost, ?_, hcc⟩
            · rw [show notifyList tbl fuel st (d :: ds) = notifyList tbl fuel st ds from by
                simp [notifyList, hflag]]
              exact heq
            · intro e he
              rcases List.mem_cons.mp he with he | he
              · subst he
                exact regLE_lookup_some_true hpost.1 e hflag
              · exact hdirty e he
          | false =>
            have hcc1 : cleanCount (markDirty st d) < cleanCount st :=
              markDirty_cleanCount_lt st d hflag
            have hwf1 : notifyWF tbl (markDirty st d) :=
              notifyWF_of_regLE tbl st _ (markDirty_regLE st d) hwf
            obtain ⟨st'', heq2, hpost2, hdeps2, hcc2⟩ :=
              ih (markDirty st d) d hwf1 (by omega)
            have hedge : reaches tbl src d := Relation.TransGen.single hdmem
            have hpost2' : NotifyPost tbl (reaches tbl src) (markDirty st d) st'' :=
              notifyPost_mono_R tbl _ _ _ _
                (fun h hh => Relation.TransGen.trans hedge hh) hpost2
            have hpost1 : NotifyPost tbl (reaches tbl src) st st'' :=
              notifyPost_mark_step tbl _ st st'' d hflag hedge hpost2' hdeps2
            have hwf2 : notifyWF tbl st'' := notifyWF_of_regLE tbl st _ hpost1.1 hwf
            obtain ⟨st', heq3, hpost3, hdirty3, hcc4⟩ :=
              ihds st'' hwf2 (by omega) (fun e he => hds e (List.mem_cons_of_mem _ he))
            refine ⟨st', ?_, notifyPost_trans tbl _ _ _ _ hpost1 hpost3, ?_, by omega⟩
            · rw [show notifyList tbl fuel st (d :: ds)
                  = (match notifyDeps tbl fuel (markDirty st d) d with
                     | none => none
                     | some stM => notifyList tbl fuel stM ds) from by
                  simp [notifyList, hflag]]
              rw [heq2]
              exact heq3
            · intro e he
              rcases List.mem_cons.mp he with he | he
              · subst he
                exact regLE_lookup_some_true hpost3.1 e
                  (regLE_lookup_some_true hpost2.1 e
                    (markDirty_lookup_self st e false hflag))
              · exact hdirty3 e he
    intro st src hwf hfc
    obtain ⟨st', heq, hpost, hdirty, hcc⟩ :=
      hlist src (depsOf tbl src) st hwf (by omega) (fun d hd => hd)
    refine ⟨bufferSource st' src, ?_, ?_, ?_, ?_⟩
    · show notifyDeps tbl (fuel + 1) st src = some (bufferSource st' src)
      simp [notifyDeps, heq]
    · exact notifyPost_trans tbl _ _ _ _ hpost (notifyPost_buffer tbl _ st' src)
    · intro d hd
      show assocLookup (bufferSource st' src).registry d = some true
      rw [(bufferSource_fields st' src).1]
      exact hdirty d hd
    · have hbc : cleanCount (bufferSource st' src) = cleanCount st' := by
        unfold cleanCount
        rw [(bufferSource_fields st' src).1]
      omega

/-- C3: over any dependency table built by the StatSet API (every
recorded dependent is instantiated — `GetOrInsert` inserts the instance
together with its dependency edges and only `Clear` removes either), on
a fresh change (all instances clean), `NotifyDependencies S` terminates
whenever the fuel exceeds the number of clean instances, and its SetDirty
log contains exactly the members of the transitive closure of S's
dependents, each exactly once (the log is duplicate-free), and no other
handle; afterwards a handle is dirty precisely when it is in that
closure.  Diamond shapes are covered since the table is arbitrary. -/
theorem claim_C3 (tbl : List (ℕ × List ℕ)) (st0 : NotifySt) (S : ℕ) (fuel : ℕ)
    (hwf : notifyWF tbl st0)
    (hclean : ∀ p ∈ st0.registry, p.2 = false)
    (hmarks : st0.marks = [])
    (hfuel : cleanCount st0 < fuel) :
    ∃ st', notifyDeps tbl fuel st0 S = some st' ∧
      st'.marks.Nodup ∧
      (∀ h, h ∈ st'.marks ↔ reaches tbl S h) ∧
      (∀ h, dirtyP st' h ↔ reaches tbl S h) := by
  obtain ⟨st', heq, hpost, hdeps, _⟩ := notifySpec_all tbl fuel st0 S hwf hfuel
  obtain ⟨hr, ho, batch, hm, hR, hc, hd, hn, hh, hback⟩ := hpost
  have hmarks' : st'.marks = batch := by
    rw [hm, hmarks]
    simp
  have hnodirty : ∀ h, ¬ dirtyP st0 h := by
    intro h hdirty
    have hmem := assocLookup_mem st0.registry h true hdirty
    have := hclean (h, true) hmem
    simp at this
  have hdirty_batch : ∀ h, dirtyP st' h ↔ h ∈ batch := by
    intro h
    constructor
    · intro hdirty
      rcases hback h hdirty with hd0 | hb
      · exact absurd hd0 (hnodirty h)
      · exact hb
    · exact hd h
  have hcomplete : ∀ h, reaches tbl S h → dirtyP st' h := by
    intro h hreach
    have hreach' : Relation.TransGen (fun x y => y ∈ depsOf tbl x) S h := hreach
    induction hreach' with
    | single hstep => exact hdeps _ hstep
    | tail hab hbc ihr =>
      exact hh _ ((hdirty_batch _).mp (ihr hab)) _ hbc
  refine ⟨st', heq, hmarks' ▸ hn, ?_, ?_⟩
  · intro h
    rw [hmarks']
    constructor
    · intro hb
      exact hR h hb
    · intro hreach
      exact (hdirty_batch h).mp (hcomplete h hreach)
  · intro h
    constructor
    · intro hdirty
      exact hR h ((hdirty_batch h).mp hdirty)
    · exact hcomplete h

/-- C3 (witness): the diamond graph 0 → {1, 2} → 3 with all four stats
instantiated and clean, notified from 0 with fuel 5. -/
theorem claim_C3_witness :
    notifyWF tblDiamond stDiamond ∧
    (∀ p ∈ stDiamond.registry, p.2 = false) ∧
    stDiamond.marks = [] ∧
    cleanCount stDiamond < 5 ∧
    ∃ st', notifyDeps tblDiamond 5 stDiamond 0 = some st' ∧
      st'.marks.Nodup ∧
      (∀ h, h ∈ st'.marks ↔ reaches tblDiamond 0 h) ∧
      (∀ h, dirtyP st' h ↔ reaches tblDiamond 0 h) :=
  ⟨by decide, by decide, rfl, by decide,
    claim_C3 tblDiamond stDiamond 0 5 (by decide) (by decide) rfl (by decide)⟩

end Gameplay
